import Mathlib

/-!
# urban-rs: shallow embedding and verification

A shallow embedding of the `urban-rs` library (`src/lib.rs`), a client for
the Urban Dictionary web API, together with proofs about its JSON-to-domain
decoding and error handling.

The library's observable logic starts after the HTTP transport has delivered
a response body that already parsed as JSON (transport failures and JSON
syntax errors are propagated unchanged as `ReqwestError` / `SerdeError`).
We therefore embed each fetch operation as a function from the parsed JSON
value of the response body to its result, exactly mirroring the Rust code
after the `.json().await?` line.

JSON values are modelled after `serde_json::Value`; `Value::get`, the `[]`
index operator, `as_str`, `as_array` and `as_u64` follow serde_json's
semantics (indexing a non-object, or a missing key, yields `Null`;
`as_u64` succeeds only on non-negative integral numbers that fit in 64 bits).

Dates are modelled after `chrono::naive::NaiveDate` at day granularity; the
single call `NaiveDate::parse_from_str(s, "%Y-%m-%dT%H:%M:%S%.3fZ")` is a
collaborator from the chrono crate, whose code is not part of this
repository; it is modelled from the spec as an exact-format parser (see
`parse_written_on`).
-/

/-- Numbers as held by `serde_json::Value::Number`: a non-negative integer
(stored as `u64`), a negative integer (stored as `i64`), or a floating
point number (whose value this library never inspects). -/
inductive JsonNum where
  | uint (n : Nat)
  | int (i : Int)
  | float
deriving DecidableEq, Repr

/-- `serde_json::Value`: the generic JSON value type. Objects are a finite
map from string keys to values, modelled as an association list. -/
inductive Json where
  | null
  | bool (b : Bool)
  | num (n : JsonNum)
  | str (s : String)
  | arr (elems : List Json)
  | obj (fields : List (String × Json))

namespace Json

/-- `Value::get(key)`: `Some` of the value at `key` when `self` is an object
holding that key, `None` otherwise. -/
def get (j : Json) (key : String) : Option Json :=
  match j with
  | .obj fields => fields.lookup key
  | _ => none

/-- The `value[key]` index operator on `serde_json::Value`: like `get`, but a
missing key or a non-object receiver yields `Value::Null` instead of `None`. -/
def index (j : Json) (key : String) : Json :=
  (j.get key).getD .null

/-- `Value::as_str`: `Some` of the string when the value is a JSON string. -/
def as_str : Json → Option String
  | .str s => some s
  | _ => none

/-- `Value::as_array`: `Some` of the element list when the value is a JSON
array. -/
def as_array : Json → Option (List Json)
  | .arr elems => some elems
  | _ => none

/-- `Value::as_u64`: `Some` of the number when the value is a non-negative
integer representable as a `u64`. -/
def as_u64 : Json → Option Nat
  | .num (.uint n) => if n < 2 ^ 64 then some n else none
  | _ => none

end Json

/-- `chrono::naive::NaiveDate` at the granularity this library retains:
a calendar date (year, month, day). The written-on format is four year
digits, so years are naturals below 10000 here. -/
structure NaiveDate where
  year : Nat
  month : Nat
  day : Nat
deriving DecidableEq, Repr

/-- Gregorian leap-year rule, as used by chrono's calendar arithmetic. -/
def isLeapYear (y : Nat) : Bool :=
  y % 4 == 0 && (y % 100 != 0 || y % 400 == 0)

/-- Number of days of month `m` of year `y` (0 for an out-of-range month). -/
def daysInMonth (y : Nat) (m : Nat) : Nat :=
  match m with
  | 1 => 31 | 2 => if isLeapYear y then 29 else 28
  | 3 => 31 | 4 => 30 | 5 => 31 | 6 => 30
  | 7 => 31 | 8 => 31 | 9 => 30 | 10 => 31
  | 11 => 30 | 12 => 31
  | _ => 0

/-- `NaiveDate::from_ymd_opt`: builds a date only when it is a real calendar
date. -/
def NaiveDate.from_ymd_opt (y m d : Nat) : Option NaiveDate :=
  if 1 ≤ m ∧ m ≤ 12 ∧ 1 ≤ d ∧ d ≤ daysInMonth y m then some ⟨y, m, d⟩ else none

/-- The numeric value of a decimal digit character, `none` on any other
character. -/
def digitVal (c : Char) : Option Nat :=
  if c.isDigit then some (c.toNat - 48) else none

/-- Consume exactly `width` decimal digit characters from the front of `cs`,
returning the denoted number (most significant digit first, accumulated onto
`acc`) and the rest of the input. -/
def readNum (acc : Nat) : Nat → List Char → Option (Nat × List Char)
  | 0, cs => some (acc, cs)
  | _ + 1, [] => none
  | width + 1, c :: cs =>
    match digitVal c with
    | some v => readNum (acc * 10 + v) width cs
    | none => none

/-- Consume the literal character `c` from the front of the input. -/
def expectChar (c : Char) : List Char → Option (List Char)
  | [] => none
  | c' :: cs => if c' = c then some cs else none

/-- Modelled from the spec: the call
`NaiveDate::parse_from_str(s, "%Y-%m-%dT%H:%M:%S%.3fZ")` into the chrono
crate, a collaborator whose code is not part of this repository. Per the
spec it accepts exactly the fixed format `YYYY-MM-DDThh:mm:ss.sssZ`
(millisecond-precision ISO-8601 with trailing `Z`) denoting a real calendar
date and time of day, and retains the calendar date. -/
def parse_written_on (s : String) : Option NaiveDate := do
  let (y, r) ← readNum 0 4 s.data
  let r ← expectChar '-' r
  let (mo, r) ← readNum 0 2 r
  let r ← expectChar '-' r
  let (d, r) ← readNum 0 2 r
  let r ← expectChar 'T' r
  let (h, r) ← readNum 0 2 r
  let r ← expectChar ':' r
  let (mi, r) ← readNum 0 2 r
  let r ← expectChar ':' r
  let (sec, r) ← readNum 0 2 r
  let r ← expectChar '.' r
  let (_ms, r) ← readNum 0 3 r
  let r ← expectChar 'Z' r
  if r = [] ∧ h < 24 ∧ mi < 60 ∧ sec < 60 then
    NaiveDate.from_ymd_opt y mo d
  else
    none

/-- `Defid`: a wrapper for the id of a definition entry (`u64`). -/
structure Defid where
  val : Nat
deriving DecidableEq, Repr

/-- `Defid::new`. -/
def Defid.new (id : Nat) : Defid := ⟨id⟩

/-- `Defid::as_u64`. -/
def Defid.as_u64 (d : Defid) : Nat := d.val

/-- The struct representing an Urban definition entry. The Rust field
`example` is called `example_` here (`example` is a Lean keyword);
`thumbs_up` and `thumbs_down` are `u32` fields, held as naturals below
`2 ^ 32`. -/
structure Definition where
  word : String
  definition : String
  example_ : String
  author : String
  written_on : NaiveDate
  defid : Defid
  thumbs_up : Nat
  thumbs_down : Nat
  permalink : String
  sound_urls : List String
deriving DecidableEq, Repr

/-- The `PartialEq` implementation for `Definition`: equality is decided by
`defid` alone. -/
def Definition.eq (a b : Definition) : Bool :=
  a.defid == b.defid

/-- The `Display` implementation for `Definition`. -/
def Definition.display (d : Definition) : String :=
  d.word ++ ": " ++ d.definition

/-- `Definition::new`: the fallible decode of one JSON list element into a
`Definition`. Mirrors the Rust body line by line: each `?` on an `Option`
becomes a monadic bind, the `u64 as u32` casts become `% 2 ^ 32`, and
`sound_urls` keeps exactly the string elements of the array
(`filter_map(as_str)`). -/
def Definition.new (json_definition : Json) : Option Definition := do
  let word ← (json_definition.index "word").as_str
  let definition ← (json_definition.index "definition").as_str
  let example_ ← (json_definition.index "example").as_str
  let author ← (json_definition.index "author").as_str
  let parsed_date_str ← (json_definition.index "written_on").as_str
  let written_on ← parse_written_on parsed_date_str
  let defid ← (json_definition.index "defid").as_u64
  let thumbs_up ← (json_definition.index "thumbs_up").as_u64
  let thumbs_down ← (json_definition.index "thumbs_down").as_u64
  let permalink ← (json_definition.index "permalink").as_str
  let sound_url_values ← (json_definition.index "sound_urls").as_array
  let sound_urls := sound_url_values.filterMap Json.as_str
  some { word := word, definition := definition, example_ := example_,
         author := author, written_on := written_on, defid := Defid.new defid,
         thumbs_up := thumbs_up % 2 ^ 32, thumbs_down := thumbs_down % 2 ^ 32,
         permalink := permalink, sound_urls := sound_urls }

/-- The `UrbanError` enum. `reqwestError` and `serdeError` carry an error
value in Rust; none of the code inspects those payloads, so the
constructors are nullary here. -/
inductive UrbanError where
  | reqwestError
  | serdeError
  | unknownJsonError
deriving DecidableEq, Repr

/-- `Iterator::collect::<Result<Vec<_>, _>>` over
`map(|def| Definition::new(def).ok_or(UnknownJsonError))`: left-to-right,
stops at the first element that fails to decode. -/
def collectDefs : List Json → Except UrbanError (List Definition)
  | [] => .ok []
  | d :: rest =>
    match Definition.new d with
    | none => .error .unknownJsonError
    | some x =>
      match collectDefs rest with
      | .error e => .error e
      | .ok xs => .ok (x :: xs)

/-- `fetch_definition` (lookup by term), from the point where the response
body has parsed as the JSON value `response`: extract `"list"`, require an
array, decode every element strictly. -/
def fetch_definition (response : Json) : Except UrbanError (List Definition) :=
  match response.get "list" with
  | none => .error .unknownJsonError
  | some l =>
    match l.as_array with
    | none => .error .unknownJsonError
    | some elems => collectDefs elems

/-- `fetch_by_defid` (lookup by id), from the parsed response body: extract
`"list"`, require an array, decode only its first element; an empty array
is a success with no result. -/
def fetch_by_defid (response : Json) : Except UrbanError (Option Definition) :=
  match response.get "list" with
  | none => .error .unknownJsonError
  | some l =>
    match l.as_array with
    | none => .error .unknownJsonError
    | some elems =>
      match elems.head? with
      | none => .ok none
      | some d =>
        match Definition.new d with
        | none => .error .unknownJsonError
        | some x => .ok (some x)

/-- `fetch_random`, from the parsed response body: same decoding pipeline as
`fetch_definition`. -/
def fetch_random (response : Json) : Except UrbanError (List Definition) :=
  match response.get "list" with
  | none => .error .unknownJsonError
  | some l =>
    match l.as_array with
    | none => .error .unknownJsonError
    | some elems => collectDefs elems

/-!
## Helper lemmas
-/

/-- Characterization of a successful decode: `Definition.new j = some d` holds
exactly when every required field of `j` is present with the right JSON type,
the date parses, and `d` is built from those field values (counts truncated to
32 bits, `sound_urls` keeping exactly the string elements). -/
theorem Definition.new_eq_some_iff (j : Json) (d : Definition) :
    Definition.new j = some d ↔
      (j.index "word").as_str = some d.word ∧
      (j.index "definition").as_str = some d.definition ∧
      (j.index "example").as_str = some d.example_ ∧
      (j.index "author").as_str = some d.author ∧
      (∃ s, (j.index "written_on").as_str = some s ∧
        parse_written_on s = some d.written_on) ∧
      (∃ n, (j.index "defid").as_u64 = some n ∧ d.defid = Defid.new n) ∧
      (∃ tu, (j.index "thumbs_up").as_u64 = some tu ∧
        d.thumbs_up = tu % 2 ^ 32) ∧
      (∃ td, (j.index "thumbs_down").as_u64 = some td ∧
        d.thumbs_down = td % 2 ^ 32) ∧
      (j.index "permalink").as_str = some d.permalink ∧
      (∃ xs, (j.index "sound_urls").as_array = some xs ∧
        d.sound_urls = xs.filterMap Json.as_str) := by
  obtain ⟨w, df, ex, au, dt, di, tu, td, pl, su⟩ := d
  simp only [Definition.new, Option.bind_eq_bind, Option.bind_eq_some,
    Option.some.injEq, Definition.mk.injEq]
  constructor
  · rintro ⟨w', hw, df', hdf, ex', hex, au', hau, s, hs, dt', hdt, n, hn, tu', htu,
      td', htd, pl', hpl, xs, hxs, rfl, rfl, rfl, rfl, rfl, rfl, rfl, rfl, rfl, rfl⟩
    exact ⟨hw, hdf, hex, hau, ⟨s, hs, hdt⟩, ⟨n, hn, rfl⟩, ⟨tu', htu, rfl⟩,
      ⟨td', htd, rfl⟩, hpl, ⟨xs, hxs, rfl⟩⟩
  · rintro ⟨hw, hdf, hex, hau, ⟨s, hs, hdt⟩, ⟨n, hn, hdi⟩, ⟨tu', htu, htu2⟩,
      ⟨td', htd, htd2⟩, hpl, ⟨xs, hxs, hsu⟩⟩
    exact ⟨w, hw, df, hdf, ex, hex, au, hau, s, hs, dt, hdt, n, hn, tu', htu,
      td', htd, pl, hpl, xs, hxs, rfl, rfl, rfl, rfl, rfl, hdi.symm,
      htu2.symm, htd2.symm, rfl, hsu.symm⟩

/-- A single undecodable element makes the strict collect fail with
`UnknownJsonError`. -/
theorem collectDefs_eq_error (l : List Json)
    (hd : ∃ d ∈ l, Definition.new d = none) :
    collectDefs l = Except.error UrbanError.unknownJsonError := by
  induction l with
  | nil => simp at hd
  | cons a t ih =>
    rcases hd with ⟨d, hdmem, hnone⟩
    rcases List.mem_cons.mp hdmem with rfl | hmem
    · simp [collectDefs, hnone]
    · cases ha : Definition.new a with
      | none => simp [collectDefs, ha]
      | some x => simp [collectDefs, ha, ih ⟨d, hmem, hnone⟩]

/-- When every element decodes, the strict collect succeeds with the decoded
elements in order. -/
theorem collectDefs_eq_ok (l : List Json) (ds : List Definition)
    (h : l.map Definition.new = ds.map some) :
    collectDefs l = Except.ok ds := by
  induction l generalizing ds with
  | nil =>
    cases ds with
    | nil => rfl
    | cons x xs => simp at h
  | cons a t ih =>
    cases ds with
    | nil => simp at h
    | cons x xs =>
      simp only [List.map_cons, List.cons.injEq] at h
      simp [collectDefs, h.1, ih xs h.2]

/-!
## Claims
-/

/-- C7: two `Definition` values compare as equal (via the `PartialEq`
implementation) exactly when their `defid`s are equal — all other fields are
irrelevant to equality. -/
theorem definition_eq_iff_defid (a b : Definition) :
    Definition.eq a b = true ↔ a.defid = b.defid := by
  simp [Definition.eq]

/-- C2: for each of the three fetch operations, a response body that parsed
as JSON but has no `list` field, or whose `list` field is not an array,
yields the `UnknownJsonError` ("unexpected structure") error, which is a
different error from the `SerdeError` (malformed payload) one. -/
theorem fetch_missing_list_unknown_json (resp : Json)
    (h : resp.get "list" = none ∨
      ∃ v, resp.get "list" = some v ∧ v.as_array = none) :
    fetch_definition resp = Except.error UrbanError.unknownJsonError ∧
    fetch_by_defid resp = Except.error UrbanError.unknownJsonError ∧
    fetch_random resp = Except.error UrbanError.unknownJsonError ∧
    UrbanError.unknownJsonError ≠ UrbanError.serdeError := by
  rcases h with h | ⟨v, hv, hva⟩
  · refine ⟨?_, ?_, ?_, by simp⟩ <;>
      simp [fetch_definition, fetch_by_defid, fetch_random, h]
  · refine ⟨?_, ?_, ?_, by simp⟩ <;>
      simp [fetch_definition, fetch_by_defid, fetch_random, hv, hva]

/-- C2 witness: the envelope of the spec's scenario, at a concrete input. -/
theorem fetch_missing_list_unknown_json_witness :
    fetch_definition (Json.obj [("nope", Json.num (JsonNum.uint 1))]) =
      Except.error UrbanError.unknownJsonError ∧
    fetch_by_defid (Json.obj [("nope", Json.num (JsonNum.uint 1))]) =
      Except.error UrbanError.unknownJsonError ∧
    fetch_random (Json.obj [("nope", Json.num (JsonNum.uint 1))]) =
      Except.error UrbanError.unknownJsonError ∧
    UrbanError.unknownJsonError ≠ UrbanError.serdeError :=
  fetch_missing_list_unknown_json (Json.obj [("nope", Json.num (JsonNum.uint 1))])
    (Or.inl rfl)

/-- The fields of a concrete response entry used by the witnesses: every
required field is present and well typed; `sound_urls` mixes strings and
non-strings. -/
def sampleFields : List (String × Json) := [
  ("word", Json.str "yeet"),
  ("definition", Json.str "to throw"),
  ("example", Json.str "he yeeted it"),
  ("author", Json.str "someone"),
  ("written_on", Json.str "2020-02-29T13:14:15.123Z"),
  ("defid", Json.num (JsonNum.uint 42)),
  ("thumbs_up", Json.num (JsonNum.uint 9)),
  ("thumbs_down", Json.num (JsonNum.uint 7)),
  ("permalink", Json.str "http://x"),
  ("sound_urls", Json.arr [Json.str "http://a", Json.num (JsonNum.uint 3),
    Json.str "http://b", Json.null])]

/-- A concrete response entry used by the witnesses. -/
def sampleEntry : Json := Json.obj sampleFields

/-- The `Definition` that `sampleEntry` decodes to. -/
def sampleDef : Definition :=
  ⟨"yeet", "to throw", "he yeeted it", "someone", ⟨2020, 2, 29⟩, ⟨42⟩, 9, 7,
   "http://x", ["http://a", "http://b"]⟩

/-- C1: for lookup-by-term and lookup-random, decoding the `list` array is
all-or-nothing: one undecodable element fails the whole call with
`UnknownJsonError` (no partial list), and if every element decodes the result
is exactly the decoded elements in the array's order. -/
theorem fetch_list_all_or_nothing (resp : Json) (l : List Json)
    (h : resp.get "list" = some (Json.arr l)) :
    ((∃ d ∈ l, Definition.new d = none) →
        fetch_definition resp = Except.error UrbanError.unknownJsonError ∧
        fetch_random resp = Except.error UrbanError.unknownJsonError) ∧
    ∀ ds : List Definition, l.map Definition.new = ds.map some →
      fetch_definition resp = Except.ok ds ∧ fetch_random resp = Except.ok ds := by
  constructor
  · intro hd
    constructor <;>
      simp [fetch_definition, fetch_random, h, Json.as_array, collectDefs_eq_error l hd]
  · intro ds hds
    constructor <;>
      simp [fetch_definition, fetch_random, h, Json.as_array, collectDefs_eq_ok l ds hds]

/-- C1 witness: a list with an undecodable element fails wholesale; a list
whose single element decodes returns exactly that decoded element. -/
theorem fetch_list_all_or_nothing_witness :
    (fetch_definition (Json.obj [("list", Json.arr [Json.null])]) =
        Except.error UrbanError.unknownJsonError ∧
      fetch_random (Json.obj [("list", Json.arr [Json.null])]) =
        Except.error UrbanError.unknownJsonError) ∧
    (fetch_definition (Json.obj [("list", Json.arr [sampleEntry])]) =
        Except.ok [sampleDef] ∧
      fetch_random (Json.obj [("list", Json.arr [sampleEntry])]) =
        Except.ok [sampleDef]) :=
  ⟨(fetch_list_all_or_nothing _ [Json.null] (by rfl)).1 ⟨Json.null, by simp, rfl⟩,
   (fetch_list_all_or_nothing _ [sampleEntry] (by rfl)).2 [sampleDef] (by
      simp only [List.map_cons, List.map_nil]
      rfl)⟩

/-- C6: lookup-by-identifier looks only at the head of the `list` array: an
empty array is a success carrying no result, a decodable head is returned,
an undecodable head is the `UnknownJsonError` error — whatever the later
elements are, they are never examined. -/
theorem fetch_by_defid_first_only (resp : Json) (l : List Json)
    (h : resp.get "list" = some (Json.arr l)) :
    (l = [] → fetch_by_defid resp = Except.ok none) ∧
    ∀ d rest, l = d :: rest →
      ((Definition.new d = none →
          fetch_by_defid resp = Except.error UrbanError.unknownJsonError) ∧
        ∀ x, Definition.new d = some x →
          fetch_by_defid resp = Except.ok (some x)) := by
  constructor
  · rintro rfl
    simp [fetch_by_defid, h, Json.as_array]
  · rintro d rest rfl
    constructor
    · intro hnone
      simp [fetch_by_defid, h, Json.as_array, hnone]
    · intro x hx
      simp [fetch_by_defid, h, Json.as_array, hx]

/-- C6 witness: the empty-list, undecodable-head and decodable-head cases at
concrete inputs; the bad second element behind a good head is ignored. -/
theorem fetch_by_defid_first_only_witness :
    fetch_by_defid (Json.obj [("list", Json.arr [])]) = Except.ok none ∧
    fetch_by_defid (Json.obj [("list", Json.arr [Json.null])]) =
      Except.error UrbanError.unknownJsonError ∧
    fetch_by_defid (Json.obj [("list", Json.arr [sampleEntry, Json.null])]) =
      Except.ok (some sampleDef) :=
  ⟨(fetch_by_defid_first_only _ [] (by rfl)).1 rfl,
   ((fetch_by_defid_first_only _ [Json.null] (by rfl)).2 Json.null [] rfl).1 rfl,
   ((fetch_by_defid_first_only _ [sampleEntry, Json.null] (by rfl)).2 sampleEntry
      [Json.null] rfl).2 sampleDef (by rfl)⟩

/-!
## The written-on format
-/

/-- The character of a decimal digit value. -/
def dchar (v : Nat) : Char := Char.ofNat (48 + v)

/-- The number denoted by a list of decimal digit values, most significant
first. -/
def digitsToNat (ds : List Nat) : Nat :=
  ds.foldl (fun a x => a * 10 + x) 0

/-- The character sequence `YYYY-MM-DDThh:mm:ss.sssZ` built from the digit
values of its seven numeric runs. -/
def writtenOnShape (ys os dls hs ms ss fs : List Nat) : List Char :=
  ys.map dchar ++ '-' :: (os.map dchar ++ '-' :: (dls.map dchar ++
    'T' :: (hs.map dchar ++ ':' :: (ms.map dchar ++ ':' :: (ss.map dchar ++
      '.' :: (fs.map dchar ++ ['Z']))))))

/-- `s` matches the fixed format `YYYY-MM-DDThh:mm:ss.sssZ` — seven runs of
decimal digits of widths 4, 2, 2, 2, 2, 2, 3 separated by the literal
characters `-`, `-`, `T`, `:`, `:`, `.` and a trailing `Z`, denoting a real
calendar date and time of day — and `dt` is the calendar date it denotes. -/
def WrittenOnFormat (s : String) (dt : NaiveDate) : Prop :=
  ∃ ys os dls hs ms ss fs : List Nat,
    ys.length = 4 ∧ os.length = 2 ∧ dls.length = 2 ∧ hs.length = 2 ∧
    ms.length = 2 ∧ ss.length = 2 ∧ fs.length = 3 ∧
    (∀ x ∈ ys ++ os ++ dls ++ hs ++ ms ++ ss ++ fs, x < 10) ∧
    s.data = writtenOnShape ys os dls hs ms ss fs ∧
    digitsToNat hs < 24 ∧ digitsToNat ms < 60 ∧ digitsToNat ss < 60 ∧
    1 ≤ digitsToNat os ∧ digitsToNat os ≤ 12 ∧ 1 ≤ digitsToNat dls ∧
    digitsToNat dls ≤ daysInMonth (digitsToNat ys) (digitsToNat os) ∧
    dt = ⟨digitsToNat ys, digitsToNat os, digitsToNat dls⟩

/-- `digitVal` succeeds exactly on the ten digit characters, with their
values. -/
theorem digitVal_eq_some {c : Char} {v : Nat} :
    digitVal c = some v ↔ v < 10 ∧ c = dchar v := by
  constructor
  · intro h
    unfold digitVal at h
    split at h
    · rename_i hd
      injection h with h
      simp only [Char.isDigit, Bool.and_eq_true, decide_eq_true_eq] at hd
      obtain ⟨h1, h2⟩ := hd
      have h1' : 48 ≤ c.toNat := h1
      have h2' : c.toNat ≤ 57 := h2
      subst h
      refine ⟨by omega, ?_⟩
      have h48 : 48 + (c.toNat - 48) = c.toNat := by omega
      rw [dchar, h48, Char.ofNat_toNat]
    · exact absurd h (by simp)
  · rintro ⟨hv, rfl⟩
    interval_cases v <;> decide

/-- Inversion for `readNum`: it succeeds exactly when the input starts with
`width` digit characters, and then returns the number they denote
(accumulated onto `acc`) together with the rest of the input. -/
theorem readNum_eq_some (width : Nat) :
    ∀ (acc : Nat) (cs : List Char) (v : Nat) (r : List Char),
      readNum acc width cs = some (v, r) ↔
        ∃ ds : List Nat, ds.length = width ∧ (∀ x ∈ ds, x < 10) ∧
          cs = ds.map dchar ++ r ∧
          v = ds.foldl (fun a x => a * 10 + x) acc := by
  induction width with
  | zero =>
    intro acc cs v r
    simp only [readNum, Option.some.injEq, Prod.mk.injEq]
    constructor
    · rintro ⟨rfl, rfl⟩
      exact ⟨[], rfl, by simp, by simp, rfl⟩
    · rintro ⟨ds, hlen, _, hcs, hv⟩
      obtain rfl := List.length_eq_zero.mp hlen
      simp at hcs hv
      exact ⟨hv.symm, hcs⟩
  | succ w ih =>
    intro acc cs v r
    cases cs with
    | nil =>
      simp only [readNum]
      constructor
      · intro h
        exact Option.noConfusion h
      · rintro ⟨ds, hlen, _, hcs, _⟩
        cases ds with
        | nil => simp at hlen
        | cons a t => simp at hcs
    | cons c cs' =>
      simp only [readNum]
      cases hdv : digitVal c with
      | none =>
        constructor
        · intro h
          exact Option.noConfusion h
        · rintro ⟨ds, hlen, h10, hcs, _⟩
          cases ds with
          | nil => simp at hlen
          | cons a t =>
            simp only [List.map_cons, List.cons_append, List.cons.injEq] at hcs
            have hsome : digitVal c = some a :=
              digitVal_eq_some.mpr ⟨h10 a (List.mem_cons_self a t), hcs.1⟩
            rw [hdv] at hsome
            exact Option.noConfusion hsome
      | some d0 =>
        rw [ih]
        obtain ⟨hd0, rfl⟩ := digitVal_eq_some.mp hdv
        constructor
        · rintro ⟨ds', hlen, h10, rfl, hv⟩
          refine ⟨d0 :: ds', by simp [hlen], ?_, by simp, by simpa using hv⟩
          intro x hx
          rcases List.mem_cons.mp hx with rfl | hx
          · exact hd0
          · exact h10 x hx
        · rintro ⟨ds, hlen, h10, hcs, hv⟩
          cases ds with
          | nil => simp at hlen
          | cons a t =>
            simp only [List.map_cons, List.cons_append, List.cons.injEq] at hcs
            have ha : digitVal (dchar d0) = some a :=
              digitVal_eq_some.mpr ⟨h10 a (List.mem_cons_self a t), hcs.1⟩
            have hda : digitVal (dchar d0) = some d0 :=
              digitVal_eq_some.mpr ⟨hd0, rfl⟩
            rw [hda] at ha
            injection ha with ha
            subst ha
            refine ⟨t, by simpa using hlen,
              fun x hx => h10 x (List.mem_cons_of_mem _ hx), hcs.2,
              by simpa using hv⟩

/-- `expectChar` succeeds exactly when the input starts with the expected
literal character. -/
theorem expectChar_eq_some {c : Char} {cs r : List Char} :
    expectChar c cs = some r ↔ cs = c :: r := by
  cases cs with
  | nil => simp [expectChar]
  | cons c' cs' =>
    by_cases h : c' = c
    · subst h
      simp [expectChar]
    · simp [expectChar, h]

/-- Running `readNum` over exactly the digit characters of `ds` followed by
anything else consumes the digits and denotes their number. -/
theorem readNum_append (ds : List Nat) (h10 : ∀ x ∈ ds, x < 10) :
    ∀ (r : List Char) (acc : Nat),
      readNum acc ds.length (ds.map dchar ++ r) =
        some (ds.foldl (fun a x => a * 10 + x) acc, r) := by
  induction ds with
  | nil => intro r acc; simp [readNum]
  | cons d t ih =>
    intro r acc
    have hd : digitVal (dchar d) = some d :=
      digitVal_eq_some.mpr ⟨h10 d (List.mem_cons_self d t), rfl⟩
    simp only [List.map_cons, List.cons_append, List.length_cons, readNum, hd,
      List.foldl_cons]
    exact ih (fun x hx => h10 x (List.mem_cons_of_mem _ hx)) r (acc * 10 + d)


/-- `expectChar` on an input starting with the expected character. -/
theorem expectChar_cons (c : Char) (r : List Char) :
    expectChar c (c :: r) = some r := by
  simp [expectChar]

set_option maxHeartbeats 1000000 in
/-- C4: the written-on parse accepts exactly the strings of the fixed
format `YYYY-MM-DDThh:mm:ss.sssZ` (millisecond-precision ISO-8601 with
trailing `Z`, denoting a real calendar date and time of day): parsing
succeeds precisely on such strings, every deviating string fails, and on
success the calendar date spelled by the `YYYY-MM-DD` digits is retained. -/
theorem parse_written_on_exact_format (s : String) (dt : NaiveDate) :
    parse_written_on s = some dt ↔ WrittenOnFormat s dt := by
  constructor
  · intro h
    simp only [parse_written_on, Option.bind_eq_bind, Option.bind_eq_some] at h
    obtain ⟨⟨y, r1⟩, hy, h⟩ := h
    obtain ⟨r2, hc1, h⟩ := h
    obtain ⟨⟨mo, r3⟩, hmo, h⟩ := h
    obtain ⟨r4, hc2, h⟩ := h
    obtain ⟨⟨dd, r5⟩, hdd, h⟩ := h
    obtain ⟨r6, hcT, h⟩ := h
    obtain ⟨⟨hh, r7⟩, hhh, h⟩ := h
    obtain ⟨r8, hc3, h⟩ := h
    obtain ⟨⟨mi, r9⟩, hmi, h⟩ := h
    obtain ⟨r10, hc4, h⟩ := h
    obtain ⟨⟨sec, r11⟩, hsec, h⟩ := h
    obtain ⟨r12, hcD, h⟩ := h
    obtain ⟨⟨ms0, r13⟩, hms, h⟩ := h
    obtain ⟨r14, hcZ, hfin⟩ := h
    rw [readNum_eq_some] at hy hmo hdd hhh hmi hsec hms
    obtain ⟨ys, hys_len, hys10, hys_eq, rfl⟩ := hy
    obtain ⟨os, hos_len, hos10, hos_eq, rfl⟩ := hmo
    obtain ⟨dls, hdls_len, hdls10, hdls_eq, rfl⟩ := hdd
    obtain ⟨hsl, hhs_len, hhs10, hhs_eq, rfl⟩ := hhh
    obtain ⟨msl, hms_len, hms10, hms_eq, rfl⟩ := hmi
    obtain ⟨ssl, hss_len, hss10, hss_eq, rfl⟩ := hsec
    obtain ⟨fsl, hfs_len, hfs10, hfs_eq, rfl⟩ := hms
    dsimp only at hc1 hc2 hcT hc3 hc4 hcD hcZ hfin
    rw [expectChar_eq_some] at hc1 hc2 hcT hc3 hc4 hcD hcZ
    split at hfin
    · rename_i hcond
      obtain ⟨hr14, hlt24, hlt60a, hlt60b⟩ := hcond
      rw [NaiveDate.from_ymd_opt] at hfin
      split at hfin
      · rename_i hvalid
        injection hfin with hfin
        refine ⟨ys, os, dls, hsl, msl, ssl, fsl, hys_len, hos_len, hdls_len,
          hhs_len, hms_len, hss_len, hfs_len, ?_, ?_, hlt24, hlt60a, hlt60b,
          hvalid.1, hvalid.2.1, hvalid.2.2.1, hvalid.2.2.2, hfin.symm⟩
        · intro x hx
          simp only [List.mem_append] at hx
          rcases hx with (((((hx | hx) | hx) | hx) | hx) | hx) | hx
          · exact hys10 x hx
          · exact hos10 x hx
          · exact hdls10 x hx
          · exact hhs10 x hx
          · exact hms10 x hx
          · exact hss10 x hx
          · exact hfs10 x hx
        · rw [hys_eq, hc1, hos_eq, hc2, hdls_eq, hcT, hhs_eq, hc3, hms_eq,
            hc4, hss_eq, hcD, hfs_eq, hcZ, hr14]
          rfl
      · exact Option.noConfusion hfin
    · exact Option.noConfusion hfin
  · rintro ⟨ys, os, dls, hsl, msl, ssl, fsl, hys_len, hos_len, hdls_len,
      hhs_len, hms_len, hss_len, hfs_len, h10, hdata, hlt24, hlt60a, hlt60b,
      hmo1, hmo2, hd1, hd2, rfl⟩
    have h10ys : ∀ x ∈ ys, x < 10 := fun x hx => h10 x (by simp [hx])
    have h10os : ∀ x ∈ os, x < 10 := fun x hx => h10 x (by simp [hx])
    have h10dls : ∀ x ∈ dls, x < 10 := fun x hx => h10 x (by simp [hx])
    have h10hs : ∀ x ∈ hsl, x < 10 := fun x hx => h10 x (by simp [hx])
    have h10ms : ∀ x ∈ msl, x < 10 := fun x hx => h10 x (by simp [hx])
    have h10ss : ∀ x ∈ ssl, x < 10 := fun x hx => h10 x (by simp [hx])
    have h10fs : ∀ x ∈ fsl, x < 10 := fun x hx => h10 x (by simp [hx])
    have e1 : ∀ r, readNum 0 4 (ys.map dchar ++ r) = some (digitsToNat ys, r) :=
      fun r => by rw [← hys_len]; exact readNum_append ys h10ys r 0
    have e2 : ∀ r, readNum 0 2 (os.map dchar ++ r) = some (digitsToNat os, r) :=
      fun r => by rw [← hos_len]; exact readNum_append os h10os r 0
    have e3 : ∀ r, readNum 0 2 (dls.map dchar ++ r) = some (digitsToNat dls, r) :=
      fun r => by rw [← hdls_len]; exact readNum_append dls h10dls r 0
    have e4 : ∀ r, readNum 0 2 (hsl.map dchar ++ r) = some (digitsToNat hsl, r) :=
      fun r => by rw [← hhs_len]; exact readNum_append hsl h10hs r 0
    have e5 : ∀ r, readNum 0 2 (msl.map dchar ++ r) = some (digitsToNat msl, r) :=
      fun r => by rw [← hms_len]; exact readNum_append msl h10ms r 0
    have e6 : ∀ r, readNum 0 2 (ssl.map dchar ++ r) = some (digitsToNat ssl, r) :=
      fun r => by rw [← hss_len]; exact readNum_append ssl h10ss r 0
    have e7 : ∀ r, readNum 0 3 (fsl.map dchar ++ r) = some (digitsToNat fsl, r) :=
      fun r => by rw [← hfs_len]; exact readNum_append fsl h10fs r 0
    unfold parse_written_on
    rw [hdata]
    rw [writtenOnShape.eq_def, e1]
    dsimp only [Option.bind_eq_bind, Option.some_bind]
    rw [expectChar_cons]
    dsimp only [Option.some_bind]
    rw [e2]
    dsimp only [Option.some_bind]
    rw [expectChar_cons]
    dsimp only [Option.some_bind]
    rw [e3]
    dsimp only [Option.some_bind]
    rw [expectChar_cons]
    dsimp only [Option.some_bind]
    rw [e4]
    dsimp only [Option.some_bind]
    rw [expectChar_cons]
    dsimp only [Option.some_bind]
    rw [e5]
    dsimp only [Option.some_bind]
    rw [expectChar_cons]
    dsimp only [Option.some_bind]
    rw [e6]
    dsimp only [Option.some_bind]
    rw [expectChar_cons]
    dsimp only [Option.some_bind]
    rw [e7]
    dsimp only [Option.some_bind]
    rw [expectChar_cons]
    dsimp only [Option.some_bind]
    rw [if_pos ⟨rfl, hlt24, hlt60a, hlt60b⟩, NaiveDate.from_ymd_opt,
      if_pos ⟨hmo1, hmo2, hd1, hd2⟩]

/-- C3: the decode of one JSON entry fails — yields no value at all, never a
partially populated `Definition` — whenever any required field is missing or
has the wrong JSON type, or the `written_on` string does not parse as a
date. (A missing key and a non-object receiver both index to `Null`, whose
`as_str` / `as_u64` / `as_array` are all `none`, so "missing" and
"mistyped" land in the same hypotheses below.) -/
theorem definition_new_missing_field_fails (j : Json)
    (h : (j.index "word").as_str = none ∨
      (j.index "definition").as_str = none ∨
      (j.index "example").as_str = none ∨
      (j.index "author").as_str = none ∨
      (j.index "written_on").as_str = none ∨
      (∃ s, (j.index "written_on").as_str = some s ∧
        parse_written_on s = none) ∨
      (j.index "defid").as_u64 = none ∨
      (j.index "thumbs_up").as_u64 = none ∨
      (j.index "thumbs_down").as_u64 = none ∨
      (j.index "permalink").as_str = none ∨
      (j.index "sound_urls").as_array = none) :
    Definition.new j = none := by
  cases hn : Definition.new j with
  | none => rfl
  | some d =>
    rw [Definition.new_eq_some_iff] at hn
    obtain ⟨hw, hdf, hex, hau, ⟨s, hs, hps⟩, ⟨n, hn1, -⟩, ⟨tu, htu, -⟩,
      ⟨td, htd, -⟩, hpl, ⟨xs, hxs, -⟩⟩ := hn
    rcases h with h | h | h | h | h | ⟨s2, hs2, hps2⟩ | h | h | h | h | h <;>
      simp_all

/-- C3 witness: the empty JSON object is missing every field, so its decode
fails. -/
theorem definition_new_missing_field_fails_witness :
    Definition.new (Json.obj []) = none :=
  definition_new_missing_field_fails (Json.obj []) (Or.inl (by rfl))

/-- C5: when every required field is valid and `sound_urls` is an array
mixing strings and non-strings, the decode succeeds, and the resulting
`sound_urls` is `filterMap as_str` of the array — exactly its string
elements, in their original order, the non-strings silently skipped. -/
theorem definition_new_sound_urls_lenient (j : Json)
    (w df ex au pd pl : String) (dt : NaiveDate) (n tu td : Nat)
    (xs : List Json)
    (hw : (j.index "word").as_str = some w)
    (hdf : (j.index "definition").as_str = some df)
    (hex : (j.index "example").as_str = some ex)
    (hau : (j.index "author").as_str = some au)
    (hpd : (j.index "written_on").as_str = some pd)
    (hdt : parse_written_on pd = some dt)
    (hn : (j.index "defid").as_u64 = some n)
    (htu : (j.index "thumbs_up").as_u64 = some tu)
    (htd : (j.index "thumbs_down").as_u64 = some td)
    (hpl : (j.index "permalink").as_str = some pl)
    (hxs : (j.index "sound_urls").as_array = some xs) :
    Definition.new j = some
      { word := w, definition := df, example_ := ex, author := au,
        written_on := dt, defid := Defid.new n, thumbs_up := tu % 2 ^ 32,
        thumbs_down := td % 2 ^ 32, permalink := pl,
        sound_urls := xs.filterMap Json.as_str } := by
  rw [Definition.new_eq_some_iff]
  exact ⟨hw, hdf, hex, hau, ⟨pd, hpd, hdt⟩, ⟨n, hn, rfl⟩, ⟨tu, htu, rfl⟩,
    ⟨td, htd, rfl⟩, hpl, ⟨xs, hxs, rfl⟩⟩

/-- C5 witness: `sampleEntry`'s `sound_urls` mixes two strings with a number
and a null; the decode succeeds and keeps exactly the two strings in
order. -/
theorem definition_new_sound_urls_lenient_witness :
    Definition.new sampleEntry = some
      { word := "yeet", definition := "to throw", example_ := "he yeeted it",
        author := "someone", written_on := ⟨2020, 2, 29⟩,
        defid := Defid.new 42, thumbs_up := 9 % 2 ^ 32,
        thumbs_down := 7 % 2 ^ 32, permalink := "http://x",
        sound_urls := [Json.str "http://a", Json.num (JsonNum.uint 3),
          Json.str "http://b", Json.null].filterMap Json.as_str } ∧
    [Json.str "http://a", Json.num (JsonNum.uint 3), Json.str "http://b",
      Json.null].filterMap Json.as_str = ["http://a", "http://b"] :=
  ⟨definition_new_sound_urls_lenient sampleEntry "yeet" "to throw"
      "he yeeted it" "someone" "2020-02-29T13:14:15.123Z" "http://x"
      ⟨2020, 2, 29⟩ 42 9 7
      [Json.str "http://a", Json.num (JsonNum.uint 3), Json.str "http://b",
        Json.null]
      (by rfl) (by rfl) (by rfl) (by rfl) (by rfl) (by rfl) (by rfl)
      (by rfl) (by rfl) (by rfl) (by rfl),
   by rfl⟩

/-- C8: the thumbs counts arrive as `u64` and are stored through the Rust
`as u32` cast: under the same validity hypotheses the decode still succeeds
whatever their size, the stored counts are the original values modulo
`2 ^ 32`, and values already below `2 ^ 32` are preserved exactly. -/
theorem definition_new_thumbs_truncated (j : Json)
    (w df ex au pd pl : String) (dt : NaiveDate) (n tu td : Nat)
    (xs : List Json)
    (hw : (j.index "word").as_str = some w)
    (hdf : (j.index "definition").as_str = some df)
    (hex : (j.index "example").as_str = some ex)
    (hau : (j.index "author").as_str = some au)
    (hpd : (j.index "written_on").as_str = some pd)
    (hdt : parse_written_on pd = some dt)
    (hn : (j.index "defid").as_u64 = some n)
    (htu : (j.index "thumbs_up").as_u64 = some tu)
    (htd : (j.index "thumbs_down").as_u64 = some td)
    (hpl : (j.index "permalink").as_str = some pl)
    (hxs : (j.index "sound_urls").as_array = some xs) :
    ∃ d, Definition.new j = some d ∧
      d.thumbs_up = tu % 2 ^ 32 ∧ d.thumbs_down = td % 2 ^ 32 ∧
      (tu < 2 ^ 32 → d.thumbs_up = tu) ∧ (td < 2 ^ 32 → d.thumbs_down = td) := by
  refine ⟨Definition.mk w df ex au dt (Defid.new n) (tu % 2 ^ 32)
      (td % 2 ^ 32) pl (xs.filterMap Json.as_str), ?_, rfl, rfl,
    fun h => Nat.mod_eq_of_lt h, fun h => Nat.mod_eq_of_lt h⟩
  rw [Definition.new_eq_some_iff]
  exact ⟨hw, hdf, hex, hau, ⟨pd, hpd, hdt⟩, ⟨n, hn, rfl⟩, ⟨tu, htu, rfl⟩,
    ⟨td, htd, rfl⟩, hpl, ⟨xs, hxs, rfl⟩⟩

/-- An entry whose thumbs counts exceed the 32-bit range
(`4294967301 = 2 ^ 32 + 5`, `4294967297 = 2 ^ 32 + 1`). -/
def bigThumbsEntry : Json := Json.obj [
  ("word", Json.str "w"),
  ("definition", Json.str "d"),
  ("example", Json.str "e"),
  ("author", Json.str "a"),
  ("written_on", Json.str "1999-12-31T23:59:59.999Z"),
  ("defid", Json.num (JsonNum.uint 1)),
  ("thumbs_up", Json.num (JsonNum.uint 4294967301)),
  ("thumbs_down", Json.num (JsonNum.uint 4294967297)),
  ("permalink", Json.str "p"),
  ("sound_urls", Json.arr [])]

/-- C8 witness: counts `2 ^ 32 + 5` and `2 ^ 32 + 1` decode successfully and
are stored truncated to `5` and `1`. -/
theorem definition_new_thumbs_truncated_witness :
    (∃ d, Definition.new bigThumbsEntry = some d ∧
      d.thumbs_up = 4294967301 % 2 ^ 32 ∧ d.thumbs_down = 4294967297 % 2 ^ 32 ∧
      (4294967301 < 2 ^ 32 → d.thumbs_up = 4294967301) ∧
      (4294967297 < 2 ^ 32 → d.thumbs_down = 4294967297)) ∧
    4294967301 % 2 ^ 32 = 5 ∧ 4294967297 % 2 ^ 32 = 1 :=
  ⟨definition_new_thumbs_truncated bigThumbsEntry "w" "d" "e" "a"
      "1999-12-31T23:59:59.999Z" "p" ⟨1999, 12, 31⟩ 1 4294967301 4294967297 []
      (by rfl) (by rfl) (by rfl) (by rfl) (by rfl) (by rfl) (by rfl)
      (by rfl) (by rfl) (by rfl) (by rfl),
   by norm_num, by norm_num⟩

/-- An entry identical to `sampleEntry` except that its `word` is the empty
string. -/
def emptyWordEntry : Json := Json.obj [
  ("word", Json.str ""),
  ("definition", Json.str "to throw"),
  ("example", Json.str "he yeeted it"),
  ("author", Json.str "someone"),
  ("written_on", Json.str "2020-02-29T13:14:15.123Z"),
  ("defid", Json.num (JsonNum.uint 42)),
  ("thumbs_up", Json.num (JsonNum.uint 9)),
  ("thumbs_down", Json.num (JsonNum.uint 7)),
  ("permalink", Json.str "http://x"),
  ("sound_urls", Json.arr [])]

/-- The `Definition` that `emptyWordEntry` decodes to: its `word` is empty. -/
def emptyWordDef : Definition :=
  ⟨"", "to throw", "he yeeted it", "someone", ⟨2020, 2, 29⟩, ⟨42⟩, 9, 7,
   "http://x", []⟩

/-- C9 counterexample: the decode enforces no non-emptiness on `word` — an
entry whose `word` is the empty string is accepted, and the constructed
`Definition`'s `word` is empty. -/
theorem definition_word_may_be_empty :
    Definition.new emptyWordEntry = some emptyWordDef ∧
    emptyWordDef.word = "" :=
  ⟨by rfl, rfl⟩

/-- C9 amended: every constructed `Definition` carries the JSON entry's
`word` string verbatim — which may be empty; non-emptiness is not
enforced. -/
theorem definition_word_verbatim (j : Json) (d : Definition)
    (h : Definition.new j = some d) :
    (j.index "word").as_str = some d.word :=
  ((Definition.new_eq_some_iff j d).mp h).1

/-- C9 amended witness. -/
theorem definition_word_verbatim_witness :
    (sampleEntry.index "word").as_str = some sampleDef.word :=
  definition_word_verbatim sampleEntry sampleDef (by rfl)

/-- The ten object keys `Definition::new` consults. -/
def consultedKeys : List String :=
  ["word", "definition", "example", "author", "written_on", "defid",
   "thumbs_up", "thumbs_down", "permalink", "sound_urls"]

/-- Looking a key up past an extra leading field with a different key changes
nothing. -/
theorem Json.index_obj_cons_ne (k key : String) (v : Json)
    (fields : List (String × Json)) (h : key ≠ k) :
    (Json.obj ((k, v) :: fields)).index key = (Json.obj fields).index key := by
  have hb : (key == k) = false := beq_false_of_ne h
  simp [Json.index, Json.get, List.lookup, hb]

/-- C10: `Definition.new` is total on arbitrary JSON values — in Lean it is
a function into `Option Definition` by construction, so it always returns
`some` or `none` and cannot panic. The non-trivial content: on any
non-object value every field indexes to `Null` (never an error) and the
decode is `none`; and an extra field under an unrecognized key is ignored —
it never changes the decode's result. -/
theorem definition_new_total (j : Json) (k : String) (v : Json)
    (fields : List (String × Json)) (hobj : ∀ fs, j ≠ Json.obj fs)
    (hk : k ∉ consultedKeys) :
    (∀ key, j.index key = Json.null) ∧
    Definition.new j = none ∧
    Definition.new (Json.obj ((k, v) :: fields)) =
      Definition.new (Json.obj fields) := by
  have hnull : ∀ key, j.index key = Json.null := by
    intro key
    cases j with
    | obj fs => exact absurd rfl (hobj fs)
    | null => rfl
    | bool b => rfl
    | num n => rfl
    | str s => rfl
    | arr es => rfl
  refine ⟨hnull, ?_, ?_⟩
  · simp [Definition.new, hnull, Json.as_str]
  · have hm : ∀ key ∈ consultedKeys,
        (Json.obj ((k, v) :: fields)).index key =
          (Json.obj fields).index key := by
      intro key hkey
      refine Json.index_obj_cons_ne k key v fields ?_
      intro e
      exact hk (e ▸ hkey)
    simp only [Definition.new,
      hm "word" (by simp [consultedKeys]),
      hm "definition" (by simp [consultedKeys]),
      hm "example" (by simp [consultedKeys]),
      hm "author" (by simp [consultedKeys]),
      hm "written_on" (by simp [consultedKeys]),
      hm "defid" (by simp [consultedKeys]),
      hm "thumbs_up" (by simp [consultedKeys]),
      hm "thumbs_down" (by simp [consultedKeys]),
      hm "permalink" (by simp [consultedKeys]),
      hm "sound_urls" (by simp [consultedKeys])]

/-- C10 witness: a number as the "entry", and an extra `"extra"` field in
front of `sampleFields`. -/
theorem definition_new_total_witness :
    (∀ key, (Json.num (JsonNum.uint 0)).index key = Json.null) ∧
    Definition.new (Json.num (JsonNum.uint 0)) = none ∧
    Definition.new (Json.obj (("extra", Json.bool true) :: sampleFields)) =
      Definition.new (Json.obj sampleFields) :=
  definition_new_total (Json.num (JsonNum.uint 0)) "extra" (Json.bool true)
    sampleFields (fun fs h => Json.noConfusion h) (by simp [consultedKeys])
